import Mathlib

/- Verification of the input-validation subsystem of a Go Fiber web
   application template.

   Modelled source files:
   * `internal/validation/validator.go` — the `Validator` wrapper around
     go-playground validator v10 (`Validate`, `ValidateVar`,
     `formatValidationError`), the custom rule functions
     (`validatePassword`, `validateUsername`, `validateSlug`) and the
     `ValidationErrors` type with its query helpers.
   * `internal/middleware/validation.go` — the Fiber middleware
     (`ValidateBody`, `ValidateQuery`, `ValidateParams`,
     `ValidateHeaders`, `ValidateCustom`, `ValidatePartialFields` named
     `ValidatePartial` in Go, and the typed `GetValidated*` retrieval
     helpers).

   Modelling conventions:
   * Go `map[string]string` values are association lists (`AssocMap`)
     with Go assignment/lookup semantics; map-valued equalities in the
     theorems are stated key-wise (via `lookupMap`) wherever Go's random
     iteration order could matter.
   * Field values are strings; a rule is a boolean predicate on the
     value plus a message renderer.  The engine of go-playground
     validator evaluates the rules declared on a field in order and
     records only the first failure of each field (its `traverseField`
     appends one `FieldError` and returns); `Validate` therefore yields
     at most one message per field.
   * `validator.Var` (wrapped by `ValidateVar`) validates through an
     unnamed `cField` (`defaultCField`), so the resulting `FieldError`
     has an empty `Field()`; `formatValidationError` consequently keys
     the rendered message under the empty string.  This documented
     library behaviour is what `ValidatePartialFields` runs into.
   * HTTP statuses are natural numbers (400, 422, 500), and a Fiber
     handler outcome is either an early JSON reply or passing control to
     the next handler with the request-scoped `Locals` store updated. -/

namespace FiberValidation

/-- Association list standing for a Go `map[string]string`. -/
abbrev AssocMap := List (String × String)

/-- Go map assignment `m[k] = v`: overwrite the binding when the key is
already present, otherwise append a new binding. -/
def insertMap (m : AssocMap) (k v : String) : AssocMap :=
  match m with
  | [] => [(k, v)]
  | p :: rest => if p.1 == k then (k, v) :: rest else p :: insertMap rest k v

/-- Go map lookup `v, ok := m[k]` as an `Option`. -/
def lookupMap (m : AssocMap) (k : String) : Option String :=
  (m.find? (fun p => p.1 == k)).map (fun p => p.2)

/-- Restriction of an error map to the keys listed in `s` (the
"restriction of the error map to S" of the partial-subset law). -/
def restrictKeys (m : AssocMap) (s : List String) : AssocMap :=
  m.filter (fun p => s.contains p.1)

/-- Rule attached to a field by a `validate:"..."` tag: the pure check
run by the validator engine, and the message `getErrorMessage` renders
for a failure of this rule, as a function of `FieldError.Field()` (the
messages of `validator.go` interpolate the field name). -/
structure Rule where
  check : String → Bool
  msgFor : String → String

/-- Field of a Go struct as the validator sees it: its Go identifier
(reflect field name, used by `ValidatePartial` via `FieldByName`), its
external name (the `json` tag name extracted by the registered
`RegisterTagNameFunc`, falling back to the Go identifier), its current
value, and the ordered rule list declared in its `validate` tag (empty
list models an absent tag). -/
structure Field where
  goName : String
  extName : String
  value : String
  rules : List Rule

/-- Struct object: its fields in declaration order. -/
abbrev Obj := List Field

/-- First failing rule of a field, if any: go-playground validator
evaluates the tag chain in order and stops at the first failure
(`traverseField` records one `FieldError` and returns), rendering the
message with `e.Field()` = the external name. -/
def firstFailure (f : Field) : Option String :=
  (f.rules.find? (fun r => ! r.check f.value)).map (fun r => r.msgFor f.extName)

/-- List of `(Field(), message)` pairs produced by `validate.Struct`:
one entry per failing field, in field declaration order. -/
def fieldErrorList (obj : Obj) : AssocMap :=
  obj.filterMap (fun f => (firstFailure f).map (fun m => (f.extName, m)))

/-- Model of `formatValidationError`: fold the `FieldError` list into a
`map[string]string` keyed by `e.Field()`. -/
def formatValidationError (fes : AssocMap) : AssocMap :=
  fes.foldl (fun acc p => insertMap acc p.1 p.2) []

/-- Model of `Validator.Validate`: `validate.Struct` returns a non-nil
error exactly when some field fails, and the error is then formatted
into a field-to-message map; `none` models the nil error. -/
def Validate (obj : Obj) : Option AssocMap :=
  if fieldErrorList obj = [] then none
  else some (formatValidationError (fieldErrorList obj))

/-- Model of `Validator.ValidateVar`: run a single value against a tag's
rule list.  `validator.Var` validates through the unnamed
`defaultCField`, so the produced `FieldError` has `Field() = ""` and the
formatted map keys the message under the empty string. -/
def ValidateVar (value : String) (rules : List Rule) : Option AssocMap :=
  match rules.find? (fun r => ! r.check value) with
  | some r => some [("", r.msgFor "")]
  | none => none

/-- Body of the `for _, fieldName := range fields` loop of Go
`ValidatePartial`: resolve the field by Go name (`FieldByName`), record
`"field not found"` for a missing field, otherwise run `ValidateVar` on
the field value with its `validate` tag (skipped when the tag is empty)
and record `GetFieldError(fieldName)` when that message is non-empty.
The Go `else` branch for a non-`ValidationErrors` error cannot trigger
in this model because `ValidateVar` always yields a `ValidationErrors`
value. -/
def partialStep (obj : Obj) (errors : AssocMap) (fieldName : String) : AssocMap :=
  match obj.find? (fun f => f.goName == fieldName) with
  | none => insertMap errors fieldName "field not found"
  | some f =>
    if f.rules.isEmpty then errors
    else
      match ValidateVar f.value f.rules with
      | some ve =>
        let msg := (lookupMap ve fieldName).getD ""
        if msg == "" then errors else insertMap errors fieldName msg
      | none => errors

/-- Model of Go `ValidatePartial` (middleware): with no field names it
falls back to full validation; otherwise it loops over the requested
names and returns a `ValidationErrors` value exactly when the collected
map is non-empty.  The model's objects are always structs, so the
`reflect.Struct` kind guard never fires. -/
def ValidatePartialFields (obj : Obj) (fields : List String) : Option AssocMap :=
  if fields.isEmpty then Validate obj
  else
    let errors := fields.foldl (partialStep obj) []
    if errors.isEmpty then none else some errors

/-- Go `ValidationErrors` struct: the `Errors` map may be a nil Go map,
modelled as `none`. -/
structure ValidationErrors where
  Errors : Option AssocMap

/-- Model of `(*ValidationErrors).GetFieldError`: empty string for a nil
map, else the Go map read `ve.Errors[field]` (zero value `""` when the
key is absent). -/
def GetFieldError (ve : ValidationErrors) (field : String) : String :=
  match ve.Errors with
  | none => ""
  | some m => (lookupMap m field).getD ""

/-- Model of `(*ValidationErrors).HasFieldError`: false for a nil map,
else the `_, exists := ve.Errors[field]` check. -/
def HasFieldError (ve : ValidationErrors) (field : String) : Bool :=
  match ve.Errors with
  | none => false
  | some m => (lookupMap m field).isSome

/-- Model of `(*ValidationErrors).GetAllErrors`: a fresh empty non-nil
map for a nil `Errors` map, else the map itself.  The `Option` in the
result records Go nil-ness of the returned map. -/
def GetAllErrors (ve : ValidationErrors) : Option AssocMap :=
  match ve.Errors with
  | none => some []
  | some m => some m

/-- Model of `(*ValidationErrors).Error`: the fixed `"validation
failed"` when the map is nil or empty (`len(ve.Errors) == 0`), else the
`"field: message"` pairs joined with `"; "` (Go iterates the map in
unspecified order; the model uses insertion order, which the claims
never depend on). -/
def ErrorString (ve : ValidationErrors) : String :=
  match ve.Errors with
  | none => "validation failed"
  | some m =>
    if m.isEmpty then "validation failed"
    else String.intercalate "; " (m.map (fun p => p.1 ++ ": " ++ p.2))

/- Custom rule functions of `validator.go`.  Go compares runes by code
point; the character classes are stated on `Char.toNat` (65–90 is
`'A'`–`'Z'`, 97–122 is `'a'`–`'z'`, 48–57 is `'0'`–`'9'`, 95 is `'_'`,
45 is `'-'`).  Go `len(s)` is the UTF-8 byte length, modelled by
`String.utf8ByteSize`; `for _, c := range s` iterates runes, modelled by
`s.data`. -/

/-- Character class of `char >= 'A' && char <= 'Z'`. -/
def isUpperA (c : Char) : Bool := decide (65 ≤ c.toNat) && decide (c.toNat ≤ 90)

/-- Character class of `char >= 'a' && char <= 'z'`. -/
def isLowerA (c : Char) : Bool := decide (97 ≤ c.toNat) && decide (c.toNat ≤ 122)

/-- Character class of `char >= '0' && char <= '9'`. -/
def isDigitA (c : Char) : Bool := decide (48 ≤ c.toNat) && decide (c.toNat ≤ 57)

/-- Fixed symbol set of the password rule,
`strings.ContainsRune("!@#$%^&*()_+-=[]\x7b\x7d|;:,.<>?", char)` (the two
characters written with escapes are the curly braces). -/
def passwordSpecials : List Char :=
  ['!', '@', '#', '$', '%', '^', '&', '*', '(', ')', '_', '+', '-', '=',
   '[', ']', '\x7b', '\x7d', '|', ';', ':', ',', '.', '<', '>', '?']

/-- Membership in the password rule's fixed symbol set. -/
def isPassSpecial (c : Char) : Bool := passwordSpecials.contains c

/-- State of the four `has*` flags of `validatePassword`. -/
structure PassFlags where
  hasUpper : Bool
  hasLower : Bool
  hasNumber : Bool
  hasSpecial : Bool

/-- Body of the `switch` inside the password loop: the cases are tried
in order and the first matching one sets its flag. -/
def passStep (f : PassFlags) (c : Char) : PassFlags :=
  if isUpperA c then { f with hasUpper := true }
  else if isLowerA c then { f with hasLower := true }
  else if isDigitA c then { f with hasNumber := true }
  else if isPassSpecial c then { f with hasSpecial := true }
  else f

/-- Model of `validatePassword`: reject when the byte length is below 8,
otherwise sweep the runes once and require all four class flags. -/
def validatePassword (password : String) : Bool :=
  if password.utf8ByteSize < 8 then false
  else
    let f := password.data.foldl passStep ⟨false, false, false, false⟩
    f.hasUpper && f.hasLower && f.hasNumber && f.hasSpecial

/-- Character class admitted by `validateUsername`: ASCII letter, digit,
underscore or hyphen. -/
def isUsernameChar (c : Char) : Bool :=
  isLowerA c || isUpperA c || isDigitA c || c == '_' || c == '-'

/-- Model of `validateUsername`: byte length between 3 and 30 inclusive
and every rune in the username class (the loop returns false at the
first offending rune). -/
def validateUsername (username : String) : Bool :=
  if username.utf8ByteSize < 3 || 30 < username.utf8ByteSize then false
  else username.data.all isUsernameChar

/-- Character class admitted by `validateSlug`: lowercase ASCII letter,
digit or hyphen. -/
def isSlugChar (c : Char) : Bool := isLowerA c || isDigitA c || c == '-'

/-- Model of `validateSlug`: non-empty, every rune in the slug class,
and the first and last byte are not hyphens.  The Go code indexes bytes
(`slug[0]`, `slug[len(slug)-1]`), but that line is only reached after
the rune loop has certified every rune ASCII, where byte and rune
indexing coincide, so the model checks the first and last character. -/
def validateSlug (slug : String) : Bool :=
  match slug.data with
  | [] => false
  | c :: cs =>
    if (c :: cs).all isSlugChar then
      ! (c == '-') && ! (cs.getLastD c == '-')
    else false

/- Middleware model (`internal/middleware/validation.go`).  A Fiber
request context is reduced to its `Locals` store; a handler outcome is
an early JSON reply (status, "error" field, "message" field — the
"details" payload varies by branch and no claim depends on it) or
control passed to the next handler with the updated store. -/

/-- Dynamic value stored in `c.Locals`: the Go dynamic type of the
stored `*T` pointer (as a type name) together with the pointed-to
struct. -/
structure Dyn where
  ty : String
  obj : Obj

/-- Request-scoped `c.Locals` store. -/
abbrev Locals := List (String × Dyn)

/-- Read `c.Locals(key)`: a nil interface when the key was never set. -/
def localsGet (ls : Locals) (key : String) : Option Dyn :=
  (ls.find? (fun p => p.1 == key)).map (fun p => p.2)

/-- Write `c.Locals(key, v)`: later writes shadow earlier ones. -/
def localsSet (ls : Locals) (key : String) (v : Dyn) : Locals :=
  (key, v) :: ls

/-- Outcome of running one validation middleware handler. -/
inductive MwResult where
  | reply (status : Nat) (errLabel message : String)
  | next (locals : Locals)

/-- Status code of an early reply, if the handler replied. -/
def statusOf : MwResult → Option Nat
  | .reply s _ _ => some s
  | .next _ => none

/-- Model of `ValidateBody`: `parsed` is the result of `c.BodyParser`
(`none` for a parse error, `some` the populated model).  Parse failure
replies 400, validation failure replies 422, success stores the model
under `"validated_body"` and passes control on. -/
def ValidateBodyMw (parsed : Option Dyn) (ls : Locals) : MwResult :=
  match parsed with
  | none => .reply 400 "Invalid request body" "Failed to parse request body"
  | some m =>
    match Validate m.obj with
    | some _ => .reply 422 "Validation failed" "Request body validation failed"
    | none => .next (localsSet ls "validated_body" m)

/-- Model of `ValidateQuery`: parse failure (`c.QueryParser`) replies
400 and validation failure also replies 400; success stores the model
under `"validated_query"`. -/
def ValidateQueryMw (parsed : Option Dyn) (ls : Locals) : MwResult :=
  match parsed with
  | none => .reply 400 "Invalid query parameters" "Failed to parse query parameters"
  | some m =>
    match Validate m.obj with
    | some _ => .reply 400 "Validation failed" "Query parameter validation failed"
    | none => .next (localsSet ls "validated_query" m)

/-- Model of `ValidateParams`: parse failure (`c.ParamsParser`) replies
400 and validation failure also replies 400; success stores the model
under `"validated_params"`. -/
def ValidateParamsMw (parsed : Option Dyn) (ls : Locals) : MwResult :=
  match parsed with
  | none => .reply 400 "Invalid route parameters" "Failed to parse route parameters"
  | some m =>
    match Validate m.obj with
    | some _ => .reply 400 "Validation failed" "Route parameter validation failed"
    | none => .next (localsSet ls "validated_params" m)

/-- Model of `ValidateHeaders`: the header map is marshalled to JSON
(`marshalOk = false` models the 500 branch of a `json.Marshal` failure),
unmarshalling into the model can fail (400), validation failure replies
400, success stores the model under `"validated_headers"`. -/
def ValidateHeadersMw (marshalOk : Bool) (parsed : Option Dyn) (ls : Locals) : MwResult :=
  if ! marshalOk then .reply 500 "Internal server error" "Failed to process headers"
  else
    match parsed with
    | none => .reply 400 "Invalid headers" "Failed to parse headers"
    | some m =>
      match Validate m.obj with
      | some _ => .reply 400 "Validation failed" "Header validation failed"
      | none => .next (localsSet ls "validated_headers" m)

/-- Model of `ValidateCustom`: a user predicate over the request context
returned an error (`some`) or nil; failure replies 422 and success
passes control on without storing anything. -/
def ValidateCustomMw (customErr : Option String) (ls : Locals) : MwResult :=
  match customErr with
  | some _ => .reply 422 "Validation failed" "Custom validation failed"
  | none => .next ls

/-- Shared shape of the four typed retrieval helpers: read the tag's
key from `Locals` and run the Go type assertion `.(*T)`, which succeeds
exactly when a value was stored and its dynamic type matches. -/
def getLocalTyped (ls : Locals) (key ty : String) : Option Dyn × Bool :=
  match localsGet ls key with
  | some d => if d.ty == ty then (some d, true) else (none, false)
  | none => (none, false)

/-- Model of `GetValidatedBody[T]`: type-assert `c.Locals("validated_body")`
against `*T`, returning `(nil, false)` on any failure. -/
def GetValidatedBody (ls : Locals) (ty : String) : Option Dyn × Bool :=
  getLocalTyped ls "validated_body" ty

/-- Model of `GetValidatedQuery[T]`. -/
def GetValidatedQuery (ls : Locals) (ty : String) : Option Dyn × Bool :=
  getLocalTyped ls "validated_query" ty

/-- Model of `GetValidatedParams[T]`. -/
def GetValidatedParams (ls : Locals) (ty : String) : Option Dyn × Bool :=
  getLocalTyped ls "validated_params" ty

/-- Model of `GetValidatedHeaders[T]`. -/
def GetValidatedHeaders (ls : Locals) (ty : String) : Option Dyn × Bool :=
  getLocalTyped ls "validated_headers" ty

/- Basic lemmas about the association-map model. -/

theorem lookupMap_nil (k : String) : lookupMap [] k = none := rfl

theorem lookupMap_cons (p : String × String) (m : AssocMap) (k : String) :
    lookupMap (p :: m) k = if p.1 == k then some p.2 else lookupMap m k := by
  by_cases h : p.1 = k
  · simp [lookupMap, List.find?, h]
  · have hb : (p.1 == k) = false := by simp [h]
    simp [lookupMap, List.find?, hb]

theorem lookupMap_insert_self (m : AssocMap) (k v : String) :
    lookupMap (insertMap m k v) k = some v := by
  induction m with
  | nil => simp [insertMap, lookupMap_cons, lookupMap_nil]
  | cons p rest ih =>
    by_cases h : p.1 = k
    · simp [insertMap, h, lookupMap_cons]
    · have hb : (p.1 == k) = false := by simp [h]
      simp [insertMap, hb, lookupMap_cons, ih]

theorem lookupMap_insert_other (m : AssocMap) (k v k2 : String) (h : k ≠ k2) :
    lookupMap (insertMap m k v) k2 = lookupMap m k2 := by
  have hb : (k == k2) = false := by simp [h]
  induction m with
  | nil => simp [insertMap, lookupMap_cons, lookupMap_nil, hb]
  | cons p rest ih =>
    by_cases hp : p.1 = k
    · simp [insertMap, hp, lookupMap_cons, hb]
    · have hpb : (p.1 == k) = false := by simp [hp]
      simp [insertMap, hpb, lookupMap_cons, ih]

theorem insertMap_ne_nil (m : AssocMap) (k v : String) : insertMap m k v ≠ [] := by
  cases m with
  | nil => simp [insertMap]
  | cons p rest => by_cases h : p.1 = k <;> simp [insertMap, h]

theorem ne_nil_of_lookupMap_some (m : AssocMap) (k v : String)
    (h : lookupMap m k = some v) : m ≠ [] := by
  intro he
  rw [he, lookupMap_nil] at h
  exact Option.noConfusion h

/- Concrete example shape used across the claims: a struct with a single
Go field `Name` carrying `validate:"required"` and no `json` tag, so the
external name coincides with the Go identifier. -/

/-- Rule modelling the built-in `required` tag on a string field: fails
on the empty string, with the message `getErrorMessage` renders for the
`required` tag. -/
def reqRule : Rule :=
  { check := fun s => ! s.isEmpty, msgFor := fun fld => fld ++ " is required" }

/-- Field `Name string \`validate:"required"\`` holding the empty
string, so its single rule fails. -/
def exField : Field :=
  { goName := "Name", extName := "Name", value := "", rules := [reqRule] }

/-- Example struct object with the single failing field `Name`. -/
def exObj : Obj := [exField]

/-- Claim C9: calling `ValidatePartial` with an empty list of field
names is full validation — it returns exactly the result of `Validate`
on the object rather than trivially succeeding. -/
theorem validatePartial_empty_is_full (obj : Obj) :
    ValidatePartialFields obj [] = Validate obj := rfl

/-- Witness for C9 at the concrete example object. -/
theorem validatePartial_empty_is_full_witness :
    ValidatePartialFields exObj [] = Validate exObj :=
  validatePartial_empty_is_full exObj

/-- Claim C10: every query helper on a `ValidationErrors` value is total
even when the underlying `Errors` map is nil — `GetFieldError` returns
the empty string, `HasFieldError` returns false, `GetAllErrors` returns
an empty non-nil map, `Error()` returns the fixed string `"validation
failed"` when the map is nil or empty, and `GetAllErrors` never returns
a nil map for any receiver. -/
theorem validationErrors_helpers_total :
    ∀ field : String,
      GetFieldError ⟨none⟩ field = ""
      ∧ HasFieldError ⟨none⟩ field = false
      ∧ GetAllErrors ⟨none⟩ = some []
      ∧ ErrorString ⟨none⟩ = "validation failed"
      ∧ (∀ m : AssocMap, m.isEmpty = true → ErrorString ⟨some m⟩ = "validation failed")
      ∧ (∀ ve : ValidationErrors, (GetAllErrors ve).isSome = true) := by
  intro field
  refine ⟨rfl, rfl, rfl, rfl, ?_, ?_⟩
  · intro m hm
    simp [ErrorString, hm]
  · intro ve
    cases hve : ve.Errors <;> simp [GetAllErrors, hve]

/-- Witness for C10: the empty-map branch of `Error()` at a concrete
input. -/
theorem validationErrors_helpers_total_witness :
    ErrorString ⟨some []⟩ = "validation failed" :=
  (validationErrors_helpers_total "x").2.2.2.2.1 [] rfl

/-- Claim C2 is false on the code: at the concrete object `exObj` (whose
Go field `Name` exists on the shape and fails its `required` rule), full
validation produces the error map `[("Name", "Name is required")]` whose
restriction to `S = ["Name"]` is non-empty, yet `ValidatePartial exObj
["Name"]` returns success (`nil`): `ValidateVar` keys its failure under
the empty field name, so `GetFieldError("Name")` yields `""` and the
failure is silently dropped instead of being reported under `Name`. -/
theorem validatePartial_drops_rule_failures :
    (exObj.map Field.goName).contains "Name" = true
    ∧ Validate exObj = some [("Name", "Name is required")]
    ∧ restrictKeys [("Name", "Name is required")] ["Name"]
        = [("Name", "Name is required")]
    ∧ ValidatePartialFields exObj ["Name"] = none := by
  refine ⟨by decide, by decide, by decide, by decide⟩

/- Lemmas about the partial-validation loop body. -/

theorem partialStep_cases (obj : Obj) (acc : AssocMap) (fn : String) :
    partialStep obj acc fn = acc
    ∨ ∃ v, partialStep obj acc fn = insertMap acc fn v := by
  unfold partialStep
  cases obj.find? (fun f => f.goName == fn) with
  | none => exact Or.inr ⟨_, rfl⟩
  | some f =>
    by_cases hr : f.rules.isEmpty
    · simp [hr]
    · simp only [hr, Bool.false_eq_true, if_false]
      cases ValidateVar f.value f.rules with
      | none => exact Or.inl rfl
      | some ve =>
        by_cases hm : ((lookupMap ve fn).getD "") = ""
        · simp [hm]
        · have hb : (((lookupMap ve fn).getD "") == "") = false := by simp [hm]
          simp only [hb, Bool.false_eq_true, if_false]
          exact Or.inr ⟨_, rfl⟩

theorem partialStep_lookup_other (obj : Obj) (acc : AssocMap) (fn name : String)
    (h : fn ≠ name) :
    lookupMap (partialStep obj acc fn) name = lookupMap acc name := by
  rcases partialStep_cases obj acc fn with hc | ⟨v, hc⟩
  · rw [hc]
  · rw [hc, lookupMap_insert_other acc fn v name h]

theorem partialStep_missing (obj : Obj) (acc : AssocMap) (fn : String)
    (hobj : ∀ f ∈ obj, f.goName ≠ fn) :
    partialStep obj acc fn = insertMap acc fn "field not found" := by
  have hfind : obj.find? (fun f => f.goName == fn) = none :=
    List.find?_eq_none.mpr (fun f hf => by simp [hobj f hf])
  unfold partialStep
  rw [hfind]

theorem foldl_partialStep_preserves (obj : Obj) (name : String)
    (hobj : ∀ f ∈ obj, f.goName ≠ name) :
    ∀ (fns : List String) (acc : AssocMap),
      lookupMap acc name = some "field not found" →
      lookupMap (fns.foldl (partialStep obj) acc) name = some "field not found" := by
  intro fns
  induction fns with
  | nil => exact fun acc h => h
  | cons fn rest ih =>
    intro acc h
    apply ih
    by_cases hfn : fn = name
    · subst hfn
      rw [partialStep_missing obj acc fn hobj]
      exact lookupMap_insert_self acc fn _
    · rw [partialStep_lookup_other obj acc fn name hfn]
      exact h

theorem foldl_partialStep_found (obj : Obj) (name : String)
    (hobj : ∀ f ∈ obj, f.goName ≠ name) :
    ∀ (fns : List String) (acc : AssocMap), name ∈ fns →
      lookupMap (fns.foldl (partialStep obj) acc) name = some "field not found" := by
  intro fns
  induction fns with
  | nil => intro acc h; cases h
  | cons fn rest ih =>
    intro acc hmem
    rcases List.mem_cons.mp hmem with heq | hrest
    · subst heq
      apply foldl_partialStep_preserves obj name hobj rest
      rw [partialStep_missing obj acc name hobj]
      exact lookupMap_insert_self acc name _
    · exact ih _ hrest

/-- Claim C3: when `ValidatePartial` is given a field name that does not
exist on the object's shape, the result is a validation failure whose
error map contains the fixed message `"field not found"` under that
name — the missing field is never silently ignored. -/
theorem validatePartial_reports_missing_field
    (obj : Obj) (fields : List String) (name : String)
    (hmem : name ∈ fields) (hshape : ∀ f ∈ obj, f.goName ≠ name) :
    ∃ m, ValidatePartialFields obj fields = some m
      ∧ lookupMap m name = some "field not found" := by
  have hne : fields.isEmpty = false := by
    cases fields with
    | nil => cases hmem
    | cons a l => rfl
  have hlook := foldl_partialStep_found obj name hshape fields [] hmem
  have hmne : fields.foldl (partialStep obj) [] ≠ [] :=
    ne_nil_of_lookupMap_some _ _ _ hlook
  have hmne2 : (fields.foldl (partialStep obj) []).isEmpty = false := by
    simpa [List.isEmpty_iff] using hmne
  refine ⟨fields.foldl (partialStep obj) [], ?_, hlook⟩
  unfold ValidatePartialFields
  rw [hne]
  simp only [Bool.false_eq_true, if_false, hmne2]

/-- Witness for C3: requesting the undeclared field `Missing` of the
example object yields the `"field not found"` entry. -/
theorem validatePartial_reports_missing_field_witness :
    ∃ m, ValidatePartialFields exObj ["Missing"] = some m
      ∧ lookupMap m "Missing" = some "field not found" :=
  validatePartial_reports_missing_field exObj ["Missing"] "Missing"
    (List.mem_singleton.mpr rfl)
    (by
      intro f hf
      have hfe := List.mem_singleton.mp hf
      subst hfe
      decide)

/- Lemmas about full validation. -/

theorem firstFailure_eq_none_iff (f : Field) :
    firstFailure f = none ↔ ∀ r ∈ f.rules, r.check f.value = true := by
  unfold firstFailure
  rw [Option.map_eq_none', List.find?_eq_none]
  simp

theorem fieldErrorList_cons_some (f : Field) (rest : Obj) (m : String)
    (h : firstFailure f = some m) :
    fieldErrorList (f :: rest) = (f.extName, m) :: fieldErrorList rest := by
  unfold fieldErrorList
  rw [List.filterMap_cons_some (by rw [h]; rfl)]

theorem fieldErrorList_cons_none (f : Field) (rest : Obj)
    (h : firstFailure f = none) :
    fieldErrorList (f :: rest) = fieldErrorList rest := by
  unfold fieldErrorList
  rw [List.filterMap_cons_none (by rw [h]; rfl)]

theorem fieldErrorList_keys_sublist (obj : Obj) :
    ((fieldErrorList obj).map Prod.fst).Sublist (obj.map Field.extName) := by
  induction obj with
  | nil => simp [fieldErrorList]
  | cons f rest ih =>
    cases hf : firstFailure f with
    | none =>
      rw [fieldErrorList_cons_none f rest hf, List.map_cons]
      exact ih.cons _
    | some m =>
      rw [fieldErrorList_cons_some f rest m hf, List.map_cons, List.map_cons]
      exact ih.cons₂ _

theorem lookupMap_eq_none (m : AssocMap) (k : String)
    (h : k ∉ m.map Prod.fst) : lookupMap m k = none := by
  induction m with
  | nil => rfl
  | cons p rest ih =>
    rw [List.map_cons, List.mem_cons] at h
    push_neg at h
    have hb : (p.1 == k) = false := beq_eq_false_iff_ne.mpr (fun he => h.1 he.symm)
    rw [lookupMap_cons, hb, if_neg (by simp)]
    exact ih h.2

theorem insertMap_of_not_mem (m : AssocMap) (k v : String)
    (h : k ∉ m.map Prod.fst) : insertMap m k v = m ++ [(k, v)] := by
  induction m with
  | nil => rfl
  | cons p rest ih =>
    rw [List.map_cons, List.mem_cons] at h
    push_neg at h
    have hb : (p.1 == k) = false := beq_eq_false_iff_ne.mpr (fun he => h.1 he.symm)
    simp only [insertMap, hb, Bool.false_eq_true, if_false, List.cons_append]
    rw [ih h.2]

theorem foldl_insertMap_append (fes : AssocMap) :
    ∀ acc : AssocMap, (fes.map Prod.fst).Nodup →
      (∀ k ∈ fes.map Prod.fst, k ∉ acc.map Prod.fst) →
      fes.foldl (fun acc p => insertMap acc p.1 p.2) acc = acc ++ fes := by
  induction fes with
  | nil => intro acc _ _; simp
  | cons p rest ih =>
    intro acc hnd hdisj
    rw [List.map_cons, List.nodup_cons] at hnd
    have hp : p.1 ∉ acc.map Prod.fst := hdisj p.1 (by simp)
    rw [List.foldl_cons, insertMap_of_not_mem acc p.1 p.2 hp]
    rw [ih (acc ++ [(p.1, p.2)]) hnd.2 ?_]
    · simp
    · intro k hk
      rw [List.map_append, List.mem_append]
      push_neg
      refine ⟨hdisj k (by simp [hk]), ?_⟩
      simp only [List.map_cons, List.map_nil, List.mem_singleton]
      intro he
      exact hnd.1 (he ▸ hk)

theorem formatValidationError_eq_self (fes : AssocMap)
    (hnd : (fes.map Prod.fst).Nodup) : formatValidationError fes = fes := by
  unfold formatValidationError
  rw [foldl_insertMap_append fes [] hnd (by simp)]
  simp

theorem lookupMap_fieldErrorList (obj : Obj) (hnd : (obj.map Field.extName).Nodup)
    (f : Field) (hf : f ∈ obj) :
    lookupMap (fieldErrorList obj) f.extName = firstFailure f := by
  induction obj with
  | nil => cases hf
  | cons f0 rest ih =>
    rw [List.map_cons, List.nodup_cons] at hnd
    rcases List.mem_cons.mp hf with heq | hmem
    · subst heq
      cases hff : firstFailure f with
      | some m =>
        rw [fieldErrorList_cons_some f rest m hff, lookupMap_cons]
        simp
      | none =>
        rw [fieldErrorList_cons_none f rest hff]
        apply lookupMap_eq_none
        intro hk
        exact hnd.1 ((fieldErrorList_keys_sublist rest).subset hk)
    · have hne : f0.extName ≠ f.extName := by
        intro he
        exact hnd.1 (he ▸ List.mem_map_of_mem Field.extName hmem)
      cases hff : firstFailure f0 with
      | some m =>
        rw [fieldErrorList_cons_some f0 rest m hff, lookupMap_cons]
        have hb : (f0.extName == f.extName) = false := beq_eq_false_iff_ne.mpr hne
        rw [hb, if_neg (by simp)]
        exact ih hnd.2 hmem
      | none =>
        rw [fieldErrorList_cons_none f0 rest hff]
        exact ih hnd.2 hmem

theorem Validate_eq_none_iff (obj : Obj) :
    Validate obj = none ↔ ∀ f ∈ obj, firstFailure f = none := by
  unfold Validate
  by_cases hfe : fieldErrorList obj = []
  · rw [if_pos hfe]
    unfold fieldErrorList at hfe
    constructor
    · intro _ f hf
      have h2 := List.filterMap_eq_nil_iff.mp hfe f hf
      simpa using h2
    · intro _
      rfl
  · rw [if_neg hfe]
    constructor
    · intro h
      exact Option.noConfusion h
    · intro hall
      exfalso
      apply hfe
      unfold fieldErrorList
      exact List.filterMap_eq_nil_iff.mpr (fun f hf => by rw [hall f hf]; rfl)

/-- Claim C4: `Validate` returns `Invalid` (a `ValidationErrors` value)
iff at least one field fails at least one of its declared rules, the
resulting field-error map has at most one message per field — the
message of the first failing rule in declaration order, keyed by the
field's external name — and `Validate` returns `Valid` (nil) exactly
when every field satisfies every declared rule.  Stated for shapes whose
external field names are distinct (duplicate `json` tags would alias map
keys). -/
theorem Validate_invariant :
    ∀ obj : Obj, (obj.map Field.extName).Nodup →
      (Validate obj = none ↔ ∀ f ∈ obj, ∀ r ∈ f.rules, r.check f.value = true)
      ∧ (∀ m, Validate obj = some m →
          ((∃ f ∈ obj, ∃ r ∈ f.rules, r.check f.value = false)
           ∧ (m.map Prod.fst).Nodup
           ∧ ∀ f ∈ obj, lookupMap m f.extName
               = (f.rules.find? (fun r => ! r.check f.value)).map
                   (fun r => r.msgFor f.extName))) := by
  intro obj hnd
  have hkeys : ((fieldErrorList obj).map Prod.fst).Nodup :=
    List.Nodup.sublist (fieldErrorList_keys_sublist obj) hnd
  constructor
  · rw [Validate_eq_none_iff]
    constructor
    · intro h f hf
      exact (firstFailure_eq_none_iff f).mp (h f hf)
    · intro h f hf
      exact (firstFailure_eq_none_iff f).mpr (h f hf)
  · intro m hm
    have hfe : fieldErrorList obj ≠ [] := by
      intro he
      rw [Validate, if_pos he] at hm
      exact Option.noConfusion hm
    have hmeq : m = fieldErrorList obj := by
      rw [Validate, if_neg hfe] at hm
      have h2 := Option.some.inj hm
      rw [← h2, formatValidationError_eq_self _ hkeys]
    refine ⟨?_, ?_, ?_⟩
    · rcases List.exists_mem_of_ne_nil _ hfe with ⟨p, hp⟩
      unfold fieldErrorList at hp
      rcases List.mem_filterMap.mp hp with ⟨f, hf, hpf⟩
      rcases Option.map_eq_some'.mp hpf with ⟨msg, hmsg, _⟩
      unfold firstFailure at hmsg
      rcases Option.map_eq_some'.mp hmsg with ⟨r, hr, _⟩
      have hrmem := List.mem_of_find?_eq_some hr
      have hrfail := List.find?_some hr
      exact ⟨f, hf, r, hrmem, by simpa using hrfail⟩
    · rw [hmeq]
      exact hkeys
    · intro f hf
      rw [hmeq, lookupMap_fieldErrorList obj hnd f hf]
      rfl

/-- Rule modelling the built-in `min=3` tag on a string field. -/
def minRule : Rule :=
  { check := fun s => decide (3 ≤ s.length),
    msgFor := fun fld => fld ++ " must be at least 3 characters" }

/-- Witness field that passes its single rule. -/
def wFieldA : Field :=
  { goName := "Title", extName := "title", value := "Hello", rules := [reqRule] }

/-- Witness field that fails the first of its two rules. -/
def wFieldB : Field :=
  { goName := "Slug", extName := "slug", value := "", rules := [reqRule, minRule] }

/-- Witness object: one passing and one failing field, distinct
external names. -/
def wObj : Obj := [wFieldA, wFieldB]

/-- Witness for C4: on the concrete two-field object the error map
holds, under the failing field's external name, the message of the
first failing rule. -/
theorem Validate_invariant_witness :
    lookupMap [("slug", "slug is required")] wFieldB.extName
      = (wFieldB.rules.find? (fun r => ! r.check wFieldB.value)).map
          (fun r => r.msgFor wFieldB.extName) :=
  ((Validate_invariant wObj (by decide)).2 [("slug", "slug is required")]
      (by decide)).2.2 wFieldB (List.Mem.tail _ (List.Mem.head _))

/- Character-class lemmas for the custom rule functions: the four
classes of the password switch are pairwise disjoint, so the first-match
switch sets each flag exactly when the character is in the class. -/

theorem upper_not_lower (c : Char) (h : isUpperA c = true) : isLowerA c = false := by
  cases hl : isLowerA c with
  | false => rfl
  | true =>
    exfalso
    have h1 : 65 ≤ c.toNat ∧ c.toNat ≤ 90 := by simpa [isUpperA] using h
    have h2 : 97 ≤ c.toNat ∧ c.toNat ≤ 122 := by simpa [isLowerA] using hl
    omega

theorem upper_not_digit (c : Char) (h : isUpperA c = true) : isDigitA c = false := by
  cases hl : isDigitA c with
  | false => rfl
  | true =>
    exfalso
    have h1 : 65 ≤ c.toNat ∧ c.toNat ≤ 90 := by simpa [isUpperA] using h
    have h2 : 48 ≤ c.toNat ∧ c.toNat ≤ 57 := by simpa [isDigitA] using hl
    omega

theorem lower_not_digit (c : Char) (h : isLowerA c = true) : isDigitA c = false := by
  cases hl : isDigitA c with
  | false => rfl
  | true =>
    exfalso
    have h1 : 97 ≤ c.toNat ∧ c.toNat ≤ 122 := by simpa [isLowerA] using h
    have h2 : 48 ≤ c.toNat ∧ c.toNat ≤ 57 := by simpa [isDigitA] using hl
    omega

theorem specials_not_alnum :
    ∀ c ∈ passwordSpecials,
      isUpperA c = false ∧ isLowerA c = false ∧ isDigitA c = false := by
  decide

theorem isPassSpecial_mem (c : Char) (h : isPassSpecial c = true) :
    c ∈ passwordSpecials := by
  simpa [isPassSpecial] using h

theorem upper_not_special (c : Char) (h : isUpperA c = true) : isPassSpecial c = false := by
  cases hs : isPassSpecial c with
  | false => rfl
  | true =>
    exfalso
    have h2 := (specials_not_alnum c (isPassSpecial_mem c hs)).1
    rw [h] at h2
    exact Bool.noConfusion h2

theorem lower_not_special (c : Char) (h : isLowerA c = true) : isPassSpecial c = false := by
  cases hs : isPassSpecial c with
  | false => rfl
  | true =>
    exfalso
    have h2 := (specials_not_alnum c (isPassSpecial_mem c hs)).2.1
    rw [h] at h2
    exact Bool.noConfusion h2

theorem digit_not_special (c : Char) (h : isDigitA c = true) : isPassSpecial c = false := by
  cases hs : isPassSpecial c with
  | false => rfl
  | true =>
    exfalso
    have h2 := (specials_not_alnum c (isPassSpecial_mem c hs)).2.2
    rw [h] at h2
    exact Bool.noConfusion h2

/- Flag-evolution lemmas for the password sweep. -/

theorem passStep_hasUpper (f : PassFlags) (c : Char) :
    (passStep f c).hasUpper = (f.hasUpper || isUpperA c) := by
  unfold passStep
  by_cases h1 : isUpperA c = true <;> by_cases h2 : isLowerA c = true <;>
    by_cases h3 : isDigitA c = true <;> by_cases h4 : isPassSpecial c = true <;>
    simp [h1, h2, h3, h4]

theorem passStep_hasLower (f : PassFlags) (c : Char) :
    (passStep f c).hasLower = (f.hasLower || isLowerA c) := by
  unfold passStep
  by_cases h1 : isUpperA c = true
  · simp [h1, upper_not_lower c h1]
  · by_cases h2 : isLowerA c = true
    · simp [h1, h2]
    · by_cases h3 : isDigitA c = true <;> by_cases h4 : isPassSpecial c = true <;>
        simp [h1, h2, h3, h4]

theorem passStep_hasNumber (f : PassFlags) (c : Char) :
    (passStep f c).hasNumber = (f.hasNumber || isDigitA c) := by
  unfold passStep
  by_cases h1 : isUpperA c = true
  · simp [h1, upper_not_digit c h1]
  · by_cases h2 : isLowerA c = true
    · simp [h1, h2, lower_not_digit c h2]
    · by_cases h3 : isDigitA c = true <;> by_cases h4 : isPassSpecial c = true <;>
        simp [h1, h2, h3, h4]

theorem passStep_hasSpecial (f : PassFlags) (c : Char) :
    (passStep f c).hasSpecial = (f.hasSpecial || isPassSpecial c) := by
  unfold passStep
  by_cases h1 : isUpperA c = true
  · simp [h1, upper_not_special c h1]
  · by_cases h2 : isLowerA c = true
    · simp [h1, h2, lower_not_special c h2]
    · by_cases h3 : isDigitA c = true
      · simp [h1, h2, h3, digit_not_special c h3]
      · by_cases h4 : isPassSpecial c = true <;> simp [h1, h2, h3, h4]

theorem foldl_passStep_hasUpper (l : List Char) :
    ∀ f : PassFlags, (l.foldl passStep f).hasUpper = (f.hasUpper || l.any isUpperA) := by
  induction l with
  | nil => intro f; simp
  | cons c cs ih =>
    intro f
    rw [List.foldl_cons, ih (passStep f c), passStep_hasUpper, List.any_cons,
      Bool.or_assoc]

theorem foldl_passStep_hasLower (l : List Char) :
    ∀ f : PassFlags, (l.foldl passStep f).hasLower = (f.hasLower || l.any isLowerA) := by
  induction l with
  | nil => intro f; simp
  | cons c cs ih =>
    intro f
    rw [List.foldl_cons, ih (passStep f c), passStep_hasLower, List.any_cons,
      Bool.or_assoc]

theorem foldl_passStep_hasNumber (l : List Char) :
    ∀ f : PassFlags, (l.foldl passStep f).hasNumber = (f.hasNumber || l.any isDigitA) := by
  induction l with
  | nil => intro f; simp
  | cons c cs ih =>
    intro f
    rw [List.foldl_cons, ih (passStep f c), passStep_hasNumber, List.any_cons,
      Bool.or_assoc]

theorem foldl_passStep_hasSpecial (l : List Char) :
    ∀ f : PassFlags, (l.foldl passStep f).hasSpecial = (f.hasSpecial || l.any isPassSpecial) := by
  induction l with
  | nil => intro f; simp
  | cons c cs ih =>
    intro f
    rw [List.foldl_cons, ih (passStep f c), passStep_hasSpecial, List.any_cons,
      Bool.or_assoc]

/-- Claim C5: the password rule accepts a string iff its length is at
least 8 and it contains at least one uppercase ASCII letter, one
lowercase ASCII letter, one digit, and one symbol from the fixed symbol
set; in particular it accepts `"SecurePass123!"` and rejects `"weak"`
and `"alllowercase123!"`.  Length is the Go byte length
(`String.utf8ByteSize`), checked before the character sweep. -/
theorem validatePassword_spec :
    (∀ s : String, validatePassword s = true ↔
        (8 ≤ s.utf8ByteSize
         ∧ s.data.any isUpperA = true
         ∧ s.data.any isLowerA = true
         ∧ s.data.any isDigitA = true
         ∧ s.data.any isPassSpecial = true))
    ∧ validatePassword "SecurePass123!" = true
    ∧ validatePassword "weak" = false
    ∧ validatePassword "alllowercase123!" = false := by
  refine ⟨?_, by decide, by decide, by decide⟩
  intro s
  unfold validatePassword
  by_cases hlen : s.utf8ByteSize < 8
  · rw [if_pos hlen]
    constructor
    · intro h
      exact Bool.noConfusion h
    · intro h
      omega
  · rw [if_neg hlen]
    have h8 : 8 ≤ s.utf8ByteSize := by omega
    simp only [foldl_passStep_hasUpper, foldl_passStep_hasLower,
      foldl_passStep_hasNumber, foldl_passStep_hasSpecial, Bool.false_or,
      Bool.and_eq_true, h8, true_and, and_assoc]

/-- List form of the slug final byte check: the last element of a
non-empty list. -/
theorem getLast?_cons_eq (c : Char) (cs : List Char) :
    (c :: cs).getLast? = some (cs.getLastD c) := by
  induction cs generalizing c with
  | nil => rfl
  | cons d ds ih =>
    rw [List.getLast?_cons_cons, ih d, List.getLastD_cons]

/-- Claim C6: the slug rule accepts a string iff it is non-empty, every
character is a lowercase ASCII letter, a digit or a hyphen, and it
neither starts nor ends with a hyphen; in particular it accepts
`"my-post-1"` and rejects `"-leading"`, `"trailing-"` and
`"Has_Upper"`. -/
theorem validateSlug_spec :
    (∀ s : String, validateSlug s = true ↔
        (s.data ≠ []
         ∧ (∀ c ∈ s.data, isSlugChar c = true)
         ∧ s.data.head? ≠ some '-'
         ∧ s.data.getLast? ≠ some '-'))
    ∧ validateSlug "my-post-1" = true
    ∧ validateSlug "-leading" = false
    ∧ validateSlug "trailing-" = false
    ∧ validateSlug "Has_Upper" = false := by
  refine ⟨?_, by decide, by decide, by decide, by decide⟩
  intro s
  cases hd : s.data with
  | nil => simp [validateSlug, hd]
  | cons c cs =>
    simp only [validateSlug, hd]
    by_cases hall : (c :: cs).all isSlugChar = true
    · rw [if_pos hall]
      rw [List.head?_cons, getLast?_cons_eq c cs]
      constructor
      · intro h
        rw [Bool.and_eq_true] at h
        rcases h with ⟨h1, h2⟩
        have hc : c ≠ '-' := by simpa using h1
        have hl : cs.getLastD c ≠ '-' := by simpa using h2
        exact ⟨by simp, fun x hx => List.all_eq_true.mp hall x hx,
          by simpa using hc, by simpa using hl⟩
      · rintro ⟨-, -, hh, hl⟩
        have hc : c ≠ '-' := fun he => hh (by rw [he])
        have hlast : cs.getLastD c ≠ '-' := fun he => hl (by rw [he])
        rw [List.getLastD_eq_getLast?] at hlast
        simp [hc, hlast]
    · rw [if_neg hall]
      constructor
      · intro h
        exact Bool.noConfusion h
      · rintro ⟨-, hmem, -, -⟩
        exact absurd (List.all_eq_true.mpr hmem) hall

/- ASCII byte-length lemmas used by the username rule: every character
admitted by the username class is ASCII, so the Go byte length of an
accepted username equals its character count. -/

theorem usernameChar_ascii (c : Char) (h : isUsernameChar c = true) : c.toNat ≤ 127 := by
  simp only [isUsernameChar, Bool.or_eq_true, beq_iff_eq] at h
  rcases h with ((((hl | hu) | hd) | he) | he)
  · have h2 : 97 ≤ c.toNat ∧ c.toNat ≤ 122 := by simpa [isLowerA] using hl
    omega
  · have h2 : 65 ≤ c.toNat ∧ c.toNat ≤ 90 := by simpa [isUpperA] using hu
    omega
  · have h2 : 48 ≤ c.toNat ∧ c.toNat ≤ 57 := by simpa [isDigitA] using hd
    omega
  · subst he
    decide
  · subst he
    decide

theorem utf8Size_eq_one (c : Char) (h : c.toNat ≤ 127) : c.utf8Size = 1 := by
  unfold Char.utf8Size
  rw [if_pos]
  exact h

theorem utf8ByteSize_eq_length (s : String) (h : ∀ c ∈ s.data, c.toNat ≤ 127) :
    s.utf8ByteSize = s.data.length := by
  obtain ⟨l⟩ := s
  rw [String.utf8ByteSize_mk]
  induction l with
  | nil => rfl
  | cons c cs ih =>
    simp only [String.utf8Len_cons]
    rw [utf8Size_eq_one c (h c (by simp))]
    rw [ih (fun x hx => h x (by simp [hx]))]
    simp [String.data]

/-- Claim C7: the username rule accepts a string iff its length is
between 3 and 30 inclusive and every character is an ASCII letter, a
digit, an underscore or a hyphen; in particular it accepts
`"test_user-1"` and rejects `"a"` and `"bad user"`.  Every admitted
character is ASCII, so the Go byte-length bounds coincide with the
character-count bounds stated here. -/
theorem validateUsername_spec :
    (∀ s : String, validateUsername s = true ↔
        (3 ≤ s.data.length ∧ s.data.length ≤ 30
         ∧ ∀ c ∈ s.data, isUsernameChar c = true))
    ∧ validateUsername "test_user-1" = true
    ∧ validateUsername "a" = false
    ∧ validateUsername "bad user" = false := by
  refine ⟨?_, by decide, by decide, by decide⟩
  intro s
  unfold validateUsername
  by_cases hall : s.data.all isUsernameChar = true
  · have hsize : s.utf8ByteSize = s.data.length :=
      utf8ByteSize_eq_length s
        (fun c hc => usernameChar_ascii c (List.all_eq_true.mp hall c hc))
    rw [hsize]
    by_cases hlt : s.data.length < 3 || 30 < s.data.length
    · rw [if_pos hlt]
      rw [Bool.or_eq_true] at hlt
      rcases hlt with h | h
      · have h2 := of_decide_eq_true h
        constructor
        · intro hfalse
          exact Bool.noConfusion hfalse
        · intro hr
          omega
      · have h2 := of_decide_eq_true h
        constructor
        · intro hfalse
          exact Bool.noConfusion hfalse
        · intro hr
          omega
    · rw [if_neg hlt]
      rw [Bool.or_eq_true] at hlt
      push_neg at hlt
      have h2 : ¬(s.data.length < 3) ∧ ¬(30 < s.data.length) := by
        constructor
        · intro hc
          exact hlt.1 (decide_eq_true hc)
        · intro hc
          exact hlt.2 (decide_eq_true hc)
      rw [hall]
      constructor
      · intro _
        exact ⟨by omega, by omega, List.all_eq_true.mp hall⟩
      · intro _
        rfl
  · have hfall : s.data.all isUsernameChar = false := by
      revert hall
      cases s.data.all isUsernameChar <;> simp
    constructor
    · intro h
      by_cases hlt : s.utf8ByteSize < 3 || 30 < s.utf8ByteSize
      · rw [if_pos hlt] at h
        exact Bool.noConfusion h
      · rw [if_neg hlt, hfall] at h
        exact Bool.noConfusion h
    · rintro ⟨-, -, hmem⟩
      exact absurd (List.all_eq_true.mpr hmem) hall

/- Middleware status codes and typed retrieval. -/

/-- Example dynamic value whose struct fails validation, as stored by a
query-parameter middleware instantiated at a `SearchQuery`-like type. -/
def exDyn : Dyn := { ty := "SearchQuery", obj := exObj }

/-- Claim C1 is false on the code: at a concrete parsed model that fails
validation (not a parse failure — full validation on it returns an error
map), `ValidateQuery` replies with status 400, not 422, and
`ValidateParams` and `ValidateHeaders` do the same, so the two failure
classes share status 400 on those sources. -/
theorem validation_status_counterexample :
    Validate exDyn.obj = some [("Name", "Name is required")]
    ∧ statusOf (ValidateQueryMw (some exDyn) []) = some 400
    ∧ statusOf (ValidateQueryMw (some exDyn) []) ≠ some 422
    ∧ statusOf (ValidateParamsMw (some exDyn) []) = some 400
    ∧ statusOf (ValidateHeadersMw true (some exDyn) []) = some 400 := by
  refine ⟨by decide, by decide, by decide, by decide, by decide⟩

/-- Claim C1 (amended): a structural parse failure is reported with 400
by all four request-data sources, and a validation failure is reported
with 422 by `ValidateBody` (and by `ValidateCustom`), but with 400 by
`ValidateQuery`, `ValidateParams` and `ValidateHeaders` — for those
three sources the two failure classes share status code 400. -/
theorem middleware_status_codes :
    ∀ (ls : Locals) (m : Dyn) (e : AssocMap) (s : String),
      Validate m.obj = some e →
      (statusOf (ValidateBodyMw none ls) = some 400
       ∧ statusOf (ValidateBodyMw (some m) ls) = some 422
       ∧ statusOf (ValidateQueryMw none ls) = some 400
       ∧ statusOf (ValidateQueryMw (some m) ls) = some 400
       ∧ statusOf (ValidateParamsMw none ls) = some 400
       ∧ statusOf (ValidateParamsMw (some m) ls) = some 400
       ∧ statusOf (ValidateHeadersMw true none ls) = some 400
       ∧ statusOf (ValidateHeadersMw true (some m) ls) = some 400
       ∧ statusOf (ValidateCustomMw (some s) ls) = some 422) := by
  intro ls m e s hv
  refine ⟨rfl, ?_, rfl, ?_, rfl, ?_, rfl, ?_, rfl⟩ <;>
    simp [ValidateBodyMw, ValidateQueryMw, ValidateParamsMw,
      ValidateHeadersMw, statusOf, hv]

/-- Witness for C1 (amended) at the concrete failing model. -/
theorem middleware_status_codes_witness :
    statusOf (ValidateBodyMw (some exDyn) []) = some 422 :=
  (middleware_status_codes [] exDyn [("Name", "Name is required")] "e"
      (by decide)).2.1

/- Retrieval lemmas shared by the four typed getters. -/

theorem getLocalTyped_some_iff (ls : Locals) (key ty : String) (d : Dyn) :
    getLocalTyped ls key ty = (some d, true) ↔
      (localsGet ls key = some d ∧ d.ty = ty) := by
  cases hg : localsGet ls key with
  | none => simp [getLocalTyped, hg]
  | some d0 =>
    by_cases hb : d0.ty = ty
    · simp only [getLocalTyped, hg, beq_iff_eq, if_pos hb, Prod.mk.injEq,
        Option.some.injEq, and_true]
      constructor
      · intro h
        exact ⟨Option.some.injEq d0 d ▸ congrArg some h, by rw [← h]; exact hb⟩
      · rintro ⟨h1, -⟩
        exact h1.symm ▸ rfl
    · simp only [getLocalTyped, hg, beq_iff_eq, if_neg hb, Prod.mk.injEq,
        Option.some.injEq]
      constructor
      · rintro ⟨h1, h2⟩
        exact absurd h2.symm (by simp)
      · rintro ⟨h1, h2⟩
        rw [h1] at hb
        exact absurd h2 hb

theorem getLocalTyped_of_unset (ls : Locals) (key ty : String)
    (h : localsGet ls key = none) :
    getLocalTyped ls key ty = (none, false) := by
  unfold getLocalTyped
  rw [h]

theorem getLocalTyped_not_found (ls : Locals) (key ty : String)
    (h : (getLocalTyped ls key ty).2 = false) :
    (getLocalTyped ls key ty).1 = none := by
  cases hg : localsGet ls key with
  | none => simp [getLocalTyped, hg]
  | some d0 =>
    simp only [getLocalTyped, hg] at h ⊢
    by_cases hb : (d0.ty == ty) = true
    · rw [if_pos hb] at h
      exact Bool.noConfusion h
    · rw [if_neg hb]

theorem localsGet_set_self (ls : Locals) (k : String) (v : Dyn) :
    localsGet (localsSet ls k v) k = some v := by
  unfold localsGet localsSet
  rw [List.find?_cons_of_pos _ (by simp)]
  rfl

theorem localsGet_set_other (ls : Locals) (k : String) (v : Dyn) (k2 : String)
    (h : k ≠ k2) :
    localsGet (localsSet ls k v) k2 = localsGet ls k2 := by
  unfold localsGet localsSet
  rw [List.find?_cons_of_neg _ (by simpa using h)]

theorem getLocalTyped_after_set (ls : Locals) (key : String) (m : Dyn) :
    getLocalTyped (localsSet ls key m) key m.ty = (some m, true) := by
  unfold getLocalTyped
  rw [localsGet_set_self]
  simp

/-- Claim C8: each typed retrieval helper returns the stored object with
`found = true` exactly when an object of the expected type sits under
that helper's source tag; retrieval before anything was stored, or at
the wrong type, yields `(nil, false)`, a `false` flag never comes with
an object, storing happens under the source's own tag on successful
validation, and a store under one tag is invisible under any other
tag. -/
theorem getValidated_retrieval :
    ∀ (ls : Locals) (ty : String),
      ((∀ d : Dyn, GetValidatedBody ls ty = (some d, true) ↔
          (localsGet ls "validated_body" = some d ∧ d.ty = ty))
       ∧ (localsGet ls "validated_body" = none →
            GetValidatedBody ls ty = (none, false))
       ∧ ((GetValidatedBody ls ty).2 = false → (GetValidatedBody ls ty).1 = none)
       ∧ (∀ m : Dyn, Validate m.obj = none →
            ValidateBodyMw (some m) ls = .next (localsSet ls "validated_body" m)
            ∧ GetValidatedBody (localsSet ls "validated_body" m) m.ty = (some m, true)))
      ∧ ((∀ d : Dyn, GetValidatedQuery ls ty = (some d, true) ↔
          (localsGet ls "validated_query" = some d ∧ d.ty = ty))
       ∧ (localsGet ls "validated_query" = none →
            GetValidatedQuery ls ty = (none, false))
       ∧ ((GetValidatedQuery ls ty).2 = false → (GetValidatedQuery ls ty).1 = none)
       ∧ (∀ m : Dyn, Validate m.obj = none →
            ValidateQueryMw (some m) ls = .next (localsSet ls "validated_query" m)
            ∧ GetValidatedQuery (localsSet ls "validated_query" m) m.ty = (some m, true)))
      ∧ ((∀ d : Dyn, GetValidatedParams ls ty = (some d, true) ↔
          (localsGet ls "validated_params" = some d ∧ d.ty = ty))
       ∧ (localsGet ls "validated_params" = none →
            GetValidatedParams ls ty = (none, false))
       ∧ ((GetValidatedParams ls ty).2 = false → (GetValidatedParams ls ty).1 = none)
       ∧ (∀ m : Dyn, Validate m.obj = none →
            ValidateParamsMw (some m) ls = .next (localsSet ls "validated_params" m)
            ∧ GetValidatedParams (localsSet ls "validated_params" m) m.ty = (some m, true)))
      ∧ ((∀ d : Dyn, GetValidatedHeaders ls ty = (some d, true) ↔
          (localsGet ls "validated_headers" = some d ∧ d.ty = ty))
       ∧ (localsGet ls "validated_headers" = none →
            GetValidatedHeaders ls ty = (none, false))
       ∧ ((GetValidatedHeaders ls ty).2 = false → (GetValidatedHeaders ls ty).1 = none)
       ∧ (∀ m : Dyn, Validate m.obj = none →
            ValidateHeadersMw true (some m) ls = .next (localsSet ls "validated_headers" m)
            ∧ GetValidatedHeaders (localsSet ls "validated_headers" m) m.ty = (some m, true)))
      ∧ (∀ (k k2 : String) (v : Dyn), k ≠ k2 →
           localsGet (localsSet ls k v) k2 = localsGet ls k2)
      ∧ (∀ (k : String) (v : Dyn), localsGet (localsSet ls k v) k = some v) := by
  intro ls ty
  refine ⟨⟨?_, ?_, ?_, ?_⟩, ⟨?_, ?_, ?_, ?_⟩, ⟨?_, ?_, ?_, ?_⟩, ⟨?_, ?_, ?_, ?_⟩, ?_, ?_⟩
  · exact fun d => getLocalTyped_some_iff ls "validated_body" ty d
  · exact getLocalTyped_of_unset ls "validated_body" ty
  · exact getLocalTyped_not_found ls "validated_body" ty
  · intro m hv
    exact ⟨by simp [ValidateBodyMw, hv], getLocalTyped_after_set ls "validated_body" m⟩
  · exact fun d => getLocalTyped_some_iff ls "validated_query" ty d
  · exact getLocalTyped_of_unset ls "validated_query" ty
  · exact getLocalTyped_not_found ls "validated_query" ty
  · intro m hv
    exact ⟨by simp [ValidateQueryMw, hv], getLocalTyped_after_set ls "validated_query" m⟩
  · exact fun d => getLocalTyped_some_iff ls "validated_params" ty d
  · exact getLocalTyped_of_unset ls "validated_params" ty
  · exact getLocalTyped_not_found ls "validated_params" ty
  · intro m hv
    exact ⟨by simp [ValidateParamsMw, hv], getLocalTyped_after_set ls "validated_params" m⟩
  · exact fun d => getLocalTyped_some_iff ls "validated_headers" ty d
  · exact getLocalTyped_of_unset ls "validated_headers" ty
  · exact getLocalTyped_not_found ls "validated_headers" ty
  · intro m hv
    exact ⟨by simp [ValidateHeadersMw, hv], getLocalTyped_after_set ls "validated_headers" m⟩
  · exact fun k k2 v h => localsGet_set_other ls k v k2 h
  · exact fun k v => localsGet_set_self ls k v

/-- Field that passes its single rule, for the retrieval witness. -/
def okField : Field :=
  { goName := "Title", extName := "title", value := "Hello", rules := [reqRule] }

/-- Struct object that passes validation. -/
def okObj : Obj := [okField]

/-- Dynamic value holding the passing struct at a concrete Go type. -/
def okDyn : Dyn := { ty := "PostCreate", obj := okObj }

/-- Witness for C8: after a successful `ValidateBody` run the stored
model is retrieved under the body tag at its own type. -/
theorem getValidated_retrieval_witness :
    ValidateBodyMw (some okDyn) [] = .next (localsSet [] "validated_body" okDyn)
    ∧ GetValidatedBody (localsSet [] "validated_body" okDyn) okDyn.ty
        = (some okDyn, true) :=
  (getValidated_retrieval [] okDyn.ty).1.2.2.2 okDyn (by decide)

/-- Witness for C5: the characterisation applied at a concrete accepted
password. -/
theorem validatePassword_spec_witness :
    validatePassword "SecurePass123!" = true :=
  (validatePassword_spec.1 "SecurePass123!").mpr (by decide)

/-- Witness for C6: the characterisation applied at a concrete accepted
slug. -/
theorem validateSlug_spec_witness :
    validateSlug "my-post-1" = true :=
  (validateSlug_spec.1 "my-post-1").mpr (by decide)

/-- Witness for C7: the characterisation applied at a concrete accepted
username. -/
theorem validateUsername_spec_witness :
    validateUsername "test_user-1" = true :=
  (validateUsername_spec.1 "test_user-1").mpr (by decide)

end FiberValidation
